import Mathlib

/-!
Shallow embedding of the assimp G-code importer
(`code/AssetLib/Gcode/GcodeLoader.cpp` / `GcodeLoader.h`).

Coordinates are modelled with exact rationals; the NaN "absent" sentinels of the
C++ `GcodeLine` struct are modelled with `Option`.  Helpers from
`ParsingUtils.h` / `fast_atof.h` are not part of the sources and are modelled
from the spec where needed (each such definition is marked).
-/

/-- 3D vector with exact rational coordinates (models `aiVector3D`). -/
structure Vec3 where
  x : ℚ
  y : ℚ
  z : ℚ
deriving DecidableEq, Repr

/-- Componentwise addition, as `aiVector3D::operator+`. -/
def Vec3.add (a b : Vec3) : Vec3 := ⟨a.x + b.x, a.y + b.y, a.z + b.z⟩

def Vec3.zero : Vec3 := ⟨0, 0, 0⟩

/-- Per-line axis values (C++ `struct GcodeLine`); an absent field models the
NaN sentinel: `HasX()` is `x.isSome`. -/
structure GcodeLine where
  x : Option ℚ := none
  y : Option ℚ := none
  z : Option ℚ := none
  e : Option ℚ := none
deriving DecidableEq, Repr

def GcodeLine.HasX (v : GcodeLine) : Bool := v.x.isSome
def GcodeLine.HasY (v : GcodeLine) : Bool := v.y.isSome
def GcodeLine.HasZ (v : GcodeLine) : Bool := v.z.isSome
def GcodeLine.HasE (v : GcodeLine) : Bool := v.e.isSome
def GcodeLine.GetX (v : GcodeLine) (f : ℚ) : ℚ := v.x.getD f
def GcodeLine.GetY (v : GcodeLine) (f : ℚ) : ℚ := v.y.getD f
def GcodeLine.GetZ (v : GcodeLine) (f : ℚ) : ℚ := v.z.getD f
def GcodeLine.GetE (v : GcodeLine) (f : ℚ) : ℚ := v.e.getD f

/-- Move classification (C++ `enum GcodeMove { None, Travel, Extrusion }`). -/
inductive GcodeMove where
  | None
  | Travel
  | Extrusion
deriving DecidableEq, Repr

/-- The importer's mutable members (`m_absolute`, `m_pos`, `m_offset`),
with their declared defaults in `initContext`. -/
structure GcodeContext where
  m_absolute : Bool
  m_pos : Vec3
  m_offset : Vec3
deriving DecidableEq, Repr

def initContext : GcodeContext := ⟨true, Vec3.zero, Vec3.zero⟩

/-- `GcodeImporter::ToAbsolutePosition`: `m_offset + pos`. -/
def GcodeContext.ToAbsolutePosition (c : GcodeContext) (pos : Vec3) : Vec3 :=
  c.m_offset.add pos

/-- `GcodeImporter::ToLogicalPosition`: `pos - m_offset`. -/
def GcodeContext.ToLogicalPosition (c : GcodeContext) (pos : Vec3) : Vec3 :=
  ⟨pos.x - c.m_offset.x, pos.y - c.m_offset.y, pos.z - c.m_offset.z⟩

/-- World position of the head: `m_offset + m_pos`. -/
def worldOf (c : GcodeContext) : Vec3 := c.ToAbsolutePosition c.m_pos

/-- The value-level core of `GcodeImporter::ReadGcodeMove` (the `switch` on the
code `g`, after the code and the axis values have been tokenized).  `pos` is
the caller's in-out parameter (a copy of `m_pos`); the result is the updated
members, the updated `pos`, and the returned classification.  The `g = 92`
per-axis branch mirrors the source statement for statement, including
`m_offset.z = abs.z - m_pos.y` on line 281. -/
def ReadGcodeMoveV (c : GcodeContext) (g : Nat) (v : GcodeLine) (pos : Vec3) :
    GcodeContext × Vec3 × GcodeMove :=
  if g = 0 ∨ g = 1 ∨ g = 7 then
    let pos' : Vec3 :=
      if (g = 0 ∨ g = 1) ∧ c.m_absolute then
        ⟨v.GetX c.m_pos.x, v.GetY c.m_pos.y, v.GetZ c.m_pos.z⟩
      else
        ⟨c.m_pos.x + v.GetX 0, c.m_pos.y + v.GetY 0, c.m_pos.z + v.GetZ 0⟩
    let mv : GcodeMove :=
      if 0 < v.GetE 0 then GcodeMove.Extrusion
      else if v.HasX || v.HasY || v.HasZ then GcodeMove.Travel
      else GcodeMove.None
    (c, pos', mv)
  else if g = 90 then ({ c with m_absolute := true }, pos, GcodeMove.None)
  else if g = 91 then ({ c with m_absolute := false }, pos, GcodeMove.None)
  else if g = 92 then
    if !v.HasX && !v.HasY && !v.HasZ && !v.HasE then
      ({ c with m_offset := c.ToAbsolutePosition c.m_pos, m_pos := Vec3.zero },
        pos, GcodeMove.None)
    else
      let abs := c.ToAbsolutePosition c.m_pos
      let p1 : Vec3 := if v.HasX then { c.m_pos with x := v.GetX 0 } else c.m_pos
      let o1 : Vec3 := if v.HasX then { c.m_offset with x := abs.x - p1.x } else c.m_offset
      let p2 : Vec3 := if v.HasY then { p1 with y := v.GetY 0 } else p1
      let o2 : Vec3 := if v.HasY then { o1 with y := abs.y - p2.y } else o1
      let p3 : Vec3 := if v.HasZ then { p2 with z := v.GetZ 0 } else p2
      let o3 : Vec3 := if v.HasZ then { o2 with z := abs.z - p3.y } else o2
      ({ c with m_pos := p3, m_offset := o3 }, pos, GcodeMove.None)
  else (c, pos, GcodeMove.None)

/-- One output polyline (`aiMesh` restricted to what the parser fills in):
vertices and the line faces as index pairs. -/
structure Mesh where
  mVertices : List Vec3
  mFaces : List (Nat × Nat)
deriving DecidableEq, Repr

/-- The loop state of `GcodeImporter::ReadGcodeFile`: the importer members plus
the accumulation buffers `indices`, `positions` and the finished `meshes`. -/
structure FileState where
  ctx : GcodeContext
  indices : List Nat
  positions : List Vec3
  meshes : List Mesh
deriving DecidableEq, Repr

def initFileState : FileState := ⟨initContext, [], [], []⟩

/-- Groups an index buffer into consecutive pairs, as the face-building loop
does with `mNumFaces = indices.size() / 2` (an odd trailing index is dropped). -/
def pairUp : List Nat → List (Nat × Nat)
  | a :: b :: rest => (a, b) :: pairUp rest
  | _ => []

/-- The `CreateMesh` lambda of `ReadGcodeFile`: if the accumulation is empty do
nothing, otherwise emit a mesh whose vertices are
`ToAbsolutePosition(positions[i])` (with the offset current at this point) and
whose faces pair up the index buffer, then clear both buffers. -/
def CreateMesh (s : FileState) : FileState :=
  if s.positions = [] then s
  else
    { s with
      meshes := s.meshes ++
        [⟨s.positions.map (fun p => s.ctx.ToAbsolutePosition p), pairUp s.indices⟩],
      indices := [],
      positions := [] }

/-- The body of the `ReadGcodeFile` loop for one `G` line, at the value level:
`pos = m_pos; move = ReadGcodeMove(sz, pos);` then the Extrusion/Travel
dispatch, then `m_pos = pos`. -/
def stepGMove (s : FileState) (g : Nat) (v : GcodeLine) : FileState :=
  let r := ReadGcodeMoveV s.ctx g v s.ctx.m_pos
  let s1 : FileState := { s with ctx := r.1 }
  let s2 : FileState :=
    match r.2.2 with
    | GcodeMove.Extrusion =>
      let ps := s1.positions ++ [r.1.m_pos, r.2.1]
      let idx :=
        if 1 < ps.length then s1.indices ++ [ps.length - 2, ps.length - 1]
        else s1.indices
      { s1 with positions := ps, indices := idx }
    | GcodeMove.Travel => CreateMesh s1
    | GcodeMove.None => s1
  { s2 with ctx := { s2.ctx with m_pos := r.2.1 } }

/-- Runs the loop body over a list of already-tokenized `G` commands. -/
def processMoves : FileState → List (Nat × GcodeLine) → FileState
  | s, [] => s
  | s, m :: ms => processMoves (stepGMove s m.1 m.2) ms

/-! ### Character-level tokenizer

The parsing helpers (`SkipSpaces`, `SkipLine`, `strtoul10`, `fast_atof`, …)
live in `ParsingUtils.h` / `fast_atof.h`, outside the given sources; they are
modelled from the spec (§4.1, §6).  The end of the buffer (C++ `'\0'`) is the
empty list. -/

def IsSpaceTab (c : Char) : Bool := c = ' ' || c = '\t'

def IsLineEnd (c : Char) : Bool := c = '\r' || c = '\n'

def IsSpaceOrNewLine (c : Char) : Bool := IsSpaceTab c || IsLineEnd c

def IsComment (c : Char) : Bool := c = ';'

/-- Modelled from the spec: "skip spaces" within a line. -/
def skipSpaces (l : List Char) : List Char := l.dropWhile IsSpaceTab

/-- Modelled from the spec: "skip leading whitespace/line breaks". -/
def skipSpacesAndLineEnd (l : List Char) : List Char :=
  l.dropWhile (fun c => IsSpaceTab c || IsLineEnd c)

/-- Modelled from the spec: "skip the entire line", consuming the line break. -/
def SkipLine (l : List Char) : List Char :=
  (l.dropWhile (fun c => !IsLineEnd c)).dropWhile IsLineEnd

/-- `SkipValue` of `GcodeLoader.cpp`: scan until whitespace or comment. -/
def SkipValue (l : List Char) : List Char :=
  l.dropWhile (fun c => !IsSpaceOrNewLine c && !IsComment c)

/-- Modelled from the spec: "a command code (an unsigned integer following that
letter)" — reads leading decimal digits; no digits yields 0. -/
def strtoul10 (l : List Char) : Nat × List Char :=
  ((l.takeWhile Char.isDigit).foldl (fun n c => 10 * n + (c.toNat - 48)) 0,
   l.dropWhile Char.isDigit)

/-- Value of a digit string read most-significant first. -/
def digitsVal (ds : List Char) : ℚ :=
  ds.foldl (fun n c => 10 * n + ((c.toNat : ℚ) - 48)) 0

/-- Value of a digit string read as a fraction after the decimal point. -/
def fracVal (ds : List Char) : ℚ :=
  ds.foldr (fun c r => (((c.toNat : ℚ) - 48) + r) / 10) 0

/-- Modelled from the spec: the optional exponent part of "standard fast
floating-point parsing"; yields a multiplier and the remaining input. -/
def parseExponent (l : List Char) : ℚ × List Char :=
  match l with
  | c :: r =>
    if c = 'e' || c = 'E' then
      let (neg, r1) : Bool × List Char :=
        match r with
        | '-' :: r2 => (true, r2)
        | '+' :: r2 => (false, r2)
        | _ => (false, r)
      let ds := r1.takeWhile Char.isDigit
      if ds = [] then (1, l)
      else
        let n := ds.foldl (fun a d => 10 * a + (d.toNat - 48)) 0
        (if neg then (1 : ℚ) / 10 ^ n else (10 : ℚ) ^ n, r1.dropWhile Char.isDigit)
    else (1, l)
  | [] => (1, l)

/-- Modelled from the spec: "standard fast floating-point parsing", treating
"absence of digits as absence of the axis" — a malformed literal yields `none`
and consumes nothing (no crash, no propagated error). -/
def fast_atof (l : List Char) : Option ℚ × List Char :=
  let (sgn, l1) : ℚ × List Char :=
    match l with
    | '-' :: r => (-1, r)
    | '+' :: r => (1, r)
    | _ => (1, l)
  let intDs := l1.takeWhile Char.isDigit
  let l2 := l1.dropWhile Char.isDigit
  let (frDs, l3) : List Char × List Char :=
    match l2 with
    | '.' :: r => (r.takeWhile Char.isDigit, r.dropWhile Char.isDigit)
    | _ => ([], l2)
  if intDs = [] ∧ frDs = [] then (none, l)
  else
    let (m, l4) := parseExponent l3
    (some (sgn * (digitsVal intDs + fracVal frDs) * m), l4)

/-- The scanning loop of `ReadGcodeLine` (GcodeLoader.cpp lines 211-238):
skip spaces; stop at a line end or after a `;`; on tags X/Y/Z/E parse the
numeric literal; skip any other token.  `fuel` only bounds the recursion and
never runs out when called with more fuel than characters (each iteration
consumes at least the tag character). -/
def readGcodeLineAux : Nat → GcodeLine → List Char → GcodeLine × List Char
  | 0, v, l => (v, l)
  | fuel + 1, v, l =>
    match skipSpaces l with
    | [] => (v, [])
    | c :: rest =>
      if IsLineEnd c then (v, c :: rest)
      else if c.toUpper = 'X' then
        let p := fast_atof rest
        readGcodeLineAux fuel { v with x := p.1 } p.2
      else if c.toUpper = 'Y' then
        let p := fast_atof rest
        readGcodeLineAux fuel { v with y := p.1 } p.2
      else if c.toUpper = 'Z' then
        let p := fast_atof rest
        readGcodeLineAux fuel { v with z := p.1 } p.2
      else if c.toUpper = 'E' then
        let p := fast_atof rest
        readGcodeLineAux fuel { v with e := p.1 } p.2
      else if c = ';' then (v, rest)
      else readGcodeLineAux fuel v (SkipValue rest)

/-- `ReadGcodeLine` of `GcodeLoader.cpp`. -/
def ReadGcodeLine (l : List Char) : GcodeLine × List Char :=
  readGcodeLineAux (l.length + 1) {} l

/-- `GcodeImporter::ReadGcodeMove` on raw characters: parse the code with
`strtoul10`, tokenize the axis values, then run the value-level switch. -/
def ReadGcodeMove (c : GcodeContext) (l : List Char) (pos : Vec3) :
    GcodeContext × Vec3 × GcodeMove × List Char :=
  let (g, l1) := strtoul10 l
  let (v, l2) := ReadGcodeLine l1
  let r := ReadGcodeMoveV c g v pos
  (r.1, r.2.1, r.2.2, l2)

/-- The `while (SkipSpacesAndLineEnd(&sz))` loop of `ReadGcodeFile`: a line
starting with G/g is handed to `ReadGcodeMove` and dispatched by `stepGMove`;
any other line is skipped. -/
def readGcodeFileAux : Nat → FileState → List Char → FileState
  | 0, s, _ => s
  | fuel + 1, s, l =>
    match skipSpacesAndLineEnd l with
    | [] => s
    | c :: rest =>
      if c.toUpper = 'G' then
        let (g, l1) := strtoul10 rest
        let (v, l2) := ReadGcodeLine l1
        readGcodeFileAux fuel (stepGMove s g v) l2
      else
        readGcodeFileAux fuel s (SkipLine (c :: rest))

/-- `GcodeImporter::ReadGcodeFile` restricted to the parsing core: runs the
loop from the default-initialized members and applies the final `CreateMesh`.
The scene/material scaffolding around it is out of scope. -/
def ReadGcodeFile (l : List Char) : FileState :=
  CreateMesh (readGcodeFileAux (l.length + 1) initFileState l)

/-! ### Derived notions used by the statements -/

/-- A line with no axis values at all. -/
def emptyLine : GcodeLine := {}

/-- The updated `pos` that a code `g` with values `v` produces from context `c`. -/
def movedPos (c : GcodeContext) (g : Nat) (v : GcodeLine) : Vec3 :=
  (ReadGcodeMoveV c g v c.m_pos).2.1

/-- A command that the state machine classifies as Deposition: a linear-move
code carrying a present, strictly positive `e`. -/
def DepMove (m : Nat × GcodeLine) : Prop :=
  (m.1 = 0 ∨ m.1 = 1 ∨ m.1 = 7) ∧ 0 < m.2.GetE 0

instance (m : Nat × GcodeLine) : Decidable (DepMove m) := by
  unfold DepMove; infer_instance

/-- A command that the state machine classifies as Travel: a linear-move code
with no positive `e` but at least one of x/y/z present. -/
def TravelMove (m : Nat × GcodeLine) : Prop :=
  (m.1 = 0 ∨ m.1 = 1 ∨ m.1 = 7) ∧ m.2.GetE 0 ≤ 0 ∧
    (m.2.HasX || m.2.HasY || m.2.HasZ) = true

instance (m : Nat × GcodeLine) : Decidable (TravelMove m) := by
  unfold TravelMove; infer_instance

/-- Move classification exactly as the spec words it: Deposition iff `e` is
present and strictly positive; otherwise Travel iff any of x/y/z is present;
otherwise No-op. -/
def classifySpec (v : GcodeLine) : GcodeMove :=
  match v.e with
  | some q =>
    if 0 < q then GcodeMove.Extrusion
    else if v.x.isSome || v.y.isSome || v.z.isSome then GcodeMove.Travel
    else GcodeMove.None
  | none =>
    if v.x.isSome || v.y.isSome || v.z.isSome then GcodeMove.Travel
    else GcodeMove.None

/-! ### Theorems -/

/-- Code 92 always classifies as No-op: both reset branches fall through to
`return None`. -/
theorem readGcodeMoveV_92_none (c : GcodeContext) (v : GcodeLine) (pos : Vec3) :
    (ReadGcodeMoveV c 92 v pos).2.2 = GcodeMove.None := by
  unfold ReadGcodeMoveV
  norm_num
  split <;> rfl

/-- C6: under codes 0, 1 and 7 a move is classified Deposition iff `e` is
present and strictly positive, else Travel iff one of x/y/z is present, else
No-op (`classifySpec` states this in the spec's words); under code 92 the
classification is always No-op, whatever fields are present. -/
theorem c6_classification (c : GcodeContext) (v : GcodeLine) (pos : Vec3) :
    (ReadGcodeMoveV c 0 v pos).2.2 = classifySpec v ∧
    (ReadGcodeMoveV c 1 v pos).2.2 = classifySpec v ∧
    (ReadGcodeMoveV c 7 v pos).2.2 = classifySpec v ∧
    (ReadGcodeMoveV c 92 v pos).2.2 = GcodeMove.None := by
  refine ⟨?_, ?_, ?_, readGcodeMoveV_92_none c v pos⟩ <;>
    · obtain ⟨x, y, z, e⟩ := v
      cases e <;>
        simp [ReadGcodeMoveV, classifySpec, GcodeLine.GetE, GcodeLine.HasX,
          GcodeLine.HasY, GcodeLine.HasZ, GcodeLine.HasE]

/-- C9: a code-92 command whose only present field is `e` changes nothing:
the all-absent branch is not taken (it requires `e` absent too) and the
per-axis branch touches no axis, so position, offset and mode are all
unchanged and the move is classified No-op. -/
theorem c9_e_only_reset_identity (c : GcodeContext) (pos : Vec3) (q : ℚ) :
    ReadGcodeMoveV c 92 ⟨none, none, none, some q⟩ pos = (c, pos, GcodeMove.None) := by
  simp [ReadGcodeMoveV, GcodeLine.HasX, GcodeLine.HasY, GcodeLine.HasZ, GcodeLine.HasE]

/-- C8: code 90 (resp. 91) only sets `absoluteMode` to true (resp. false): it
is classified No-op, leaves position and offset (and the whole accumulation)
unchanged; and any No-op-classified command leaves the stroke buffers and the
finished strokes untouched — only Travel and Deposition ever change them. -/
theorem c8_mode_switch_noop (s : FileState) (v : GcodeLine) :
    stepGMove s 90 v = { s with ctx := { s.ctx with m_absolute := true } } ∧
    stepGMove s 91 v = { s with ctx := { s.ctx with m_absolute := false } } ∧
    (ReadGcodeMoveV s.ctx 90 v s.ctx.m_pos).2.2 = GcodeMove.None ∧
    (ReadGcodeMoveV s.ctx 91 v s.ctx.m_pos).2.2 = GcodeMove.None ∧
    (∀ (g : Nat) (w : GcodeLine),
      (ReadGcodeMoveV s.ctx g w s.ctx.m_pos).2.2 = GcodeMove.None →
        (stepGMove s g w).positions = s.positions ∧
        (stepGMove s g w).indices = s.indices ∧
        (stepGMove s g w).meshes = s.meshes) := by
  refine ⟨?_, ?_, by simp [ReadGcodeMoveV], by simp [ReadGcodeMoveV], ?_⟩
  · simp [stepGMove, ReadGcodeMoveV]
  · simp [stepGMove, ReadGcodeMoveV]
  · intro g w h
    simp [stepGMove, h]

/-- C8 witness at a concrete state and line. -/
theorem c8_mode_switch_noop_witness :
    (stepGMove initFileState 90 emptyLine).positions = initFileState.positions ∧
    (stepGMove initFileState 90 emptyLine).indices = initFileState.indices ∧
    (stepGMove initFileState 90 emptyLine).meshes = initFileState.meshes :=
  (c8_mode_switch_noop initFileState emptyLine).2.2.2.2 90 emptyLine (by decide)

/-- C10: a linear-move code carrying only a positive `e` (no x/y/z) is
classified Deposition, does not move the head, and appends the unchanged
position twice to the accumulation together with one index pair — a
zero-length segment starting or extending the current stroke. -/
theorem c10_extrusion_only_move (s : FileState) (g : Nat) (q : ℚ)
    (hg : g = 0 ∨ g = 1 ∨ g = 7) (hq : 0 < q) :
    stepGMove s g ⟨none, none, none, some q⟩ =
      { s with
        positions := s.positions ++ [s.ctx.m_pos, s.ctx.m_pos],
        indices := s.indices ++ [s.positions.length, s.positions.length + 1] } ∧
    (ReadGcodeMoveV s.ctx g ⟨none, none, none, some q⟩ s.ctx.m_pos).2.2 =
      GcodeMove.Extrusion := by
  obtain ⟨⟨ab, ⟨px, py, pz⟩, off⟩, ind, ps, ms⟩ := s
  rcases hg with rfl | rfl | rfl <;> cases ab <;>
    simp [stepGMove, ReadGcodeMoveV, GcodeLine.GetE, GcodeLine.GetX, GcodeLine.GetY,
      GcodeLine.GetZ, GcodeLine.HasX, GcodeLine.HasY, GcodeLine.HasZ, hq]

/-- C10 witness at a concrete state. -/
theorem c10_extrusion_only_move_witness :
    stepGMove initFileState 1 ⟨none, none, none, some 1⟩ =
      { initFileState with
        positions := initFileState.positions ++
          [initFileState.ctx.m_pos, initFileState.ctx.m_pos],
        indices := initFileState.indices ++
          [initFileState.positions.length, initFileState.positions.length + 1] } ∧
    (ReadGcodeMoveV initFileState.ctx 1 ⟨none, none, none, some 1⟩
        initFileState.ctx.m_pos).2.2 = GcodeMove.Extrusion :=
  c10_extrusion_only_move initFileState 1 1 (by decide) (by with_unfolding_all decide)

/-- C5 (amended): a code-92 command with no values present folds the current
logical position into the offset and zeroes the logical position
(`offset += position; position = 0`) inside `ReadGcodeMove`, so the world
position is preserved by the reset itself; the transparency half of the
original claim fails (see the counterexample): an absolute-mode move after
the reset lands at a different world position. -/
theorem c5_amended (c : GcodeContext) (pos : Vec3) :
    ReadGcodeMoveV c 92 emptyLine pos =
      ({ c with m_offset := c.m_offset.add c.m_pos, m_pos := Vec3.zero },
        pos, GcodeMove.None) ∧
    worldOf (ReadGcodeMoveV c 92 emptyLine pos).1 = worldOf c := by
  constructor
  · simp [ReadGcodeMoveV, emptyLine, GcodeLine.HasX, GcodeLine.HasY, GcodeLine.HasZ,
      GcodeLine.HasE, GcodeContext.ToAbsolutePosition]
  · simp [ReadGcodeMoveV, emptyLine, GcodeLine.HasX, GcodeLine.HasY, GcodeLine.HasZ,
      GcodeLine.HasE, worldOf, GcodeContext.ToAbsolutePosition, Vec3.add, Vec3.zero]

/-- C5 counterexample: from absolute mode at logical position (2,0,0) with
zero offset, running `G92` then `G1 X5 E1` through the file loop ends at
world position (7,0,0), while `G1 X5 E1` alone ends at (5,0,0): the reset is
not transparent to the world position. -/
theorem c5_counterexample :
    worldOf (processMoves ⟨⟨true, ⟨2, 0, 0⟩, ⟨0, 0, 0⟩⟩, [], [], []⟩
        [(92, emptyLine), (1, ⟨some 5, none, none, some 1⟩)]).ctx = ⟨7, 0, 0⟩ ∧
    worldOf (processMoves ⟨⟨true, ⟨2, 0, 0⟩, ⟨0, 0, 0⟩⟩, [], [], []⟩
        [(1, ⟨some 5, none, none, some 1⟩)]).ctx = ⟨5, 0, 0⟩ ∧
    (⟨7, 0, 0⟩ : Vec3) ≠ ⟨5, 0, 0⟩ := by with_unfolding_all decide

/-- C1: evaluation at the failing input.  From position (0,3,4) with zero
offset, `G92 Z5` sets `offset.z = abs.z - m_pos.y = 4 - 3 = 1` (GcodeLoader.cpp
line 281 subtracts the y component), so the world z becomes 6 instead of
staying 4; the claimed `offset.z = worldBefore.z - newLogical.z` would be
4 - 5 = -1. -/
theorem c1_reset_axes_world_eval :
    ReadGcodeMoveV ⟨true, ⟨0, 3, 4⟩, ⟨0, 0, 0⟩⟩ 92 ⟨none, none, some 5, none⟩ ⟨0, 3, 4⟩ =
      (⟨true, ⟨0, 3, 5⟩, ⟨0, 0, 1⟩⟩, ⟨0, 3, 4⟩, GcodeMove.None) ∧
    worldOf ⟨true, ⟨0, 3, 5⟩, ⟨0, 0, 1⟩⟩ = ⟨0, 3, 6⟩ ∧
    worldOf ⟨true, ⟨0, 3, 4⟩, ⟨0, 0, 0⟩⟩ = ⟨0, 3, 4⟩ ∧
    ((1 : ℚ) ≠ 4 - 5) := by with_unfolding_all decide

/-! ### Accumulation lemmas for deposition runs -/

theorem processMoves_append (l1 l2 : List (Nat × GcodeLine)) :
    ∀ s, processMoves s (l1 ++ l2) = processMoves (processMoves s l1) l2 := by
  induction l1 with
  | nil => intro s; rfl
  | cons m ms ih => intro s; simp only [List.cons_append, processMoves]; exact ih _

theorem CreateMesh_of_ne (s : FileState) (h : s.positions ≠ []) :
    CreateMesh s =
      { s with
        meshes := s.meshes ++
          [⟨s.positions.map (fun p => s.ctx.ToAbsolutePosition p), pairUp s.indices⟩],
        indices := [],
        positions := [] } := by
  simp [CreateMesh, h]

theorem CreateMesh_ctx (s : FileState) : (CreateMesh s).ctx = s.ctx := by
  unfold CreateMesh; split <;> rfl

/-- A Deposition-classified step appends the previous logical position and the
new one to the accumulation, together with the index pair pointing at them. -/
theorem stepGMove_dep (s : FileState) (g : Nat) (v : GcodeLine)
    (hg : g = 0 ∨ g = 1 ∨ g = 7) (he : 0 < v.GetE 0) :
    stepGMove s g v =
      { s with
        ctx := { s.ctx with m_pos := movedPos s.ctx g v },
        positions := s.positions ++ [s.ctx.m_pos, movedPos s.ctx g v],
        indices := s.indices ++ [s.positions.length, s.positions.length + 1] } := by
  rcases hg with rfl | rfl | rfl <;>
    simp [stepGMove, ReadGcodeMoveV, movedPos, he]

/-- A Travel-classified step finalizes the accumulation and only moves the
head. -/
theorem stepGMove_travel (s : FileState) (g : Nat) (v : GcodeLine)
    (hg : g = 0 ∨ g = 1 ∨ g = 7) (he : v.GetE 0 ≤ 0)
    (hx : (v.HasX || v.HasY || v.HasZ) = true) :
    stepGMove s g v =
      { CreateMesh s with ctx := { s.ctx with m_pos := movedPos s.ctx g v } } := by
  rcases hg with rfl | rfl | rfl <;>
    simp [stepGMove, ReadGcodeMoveV, movedPos, not_lt.2 he, hx, CreateMesh_ctx]

theorem range_two_more (n : Nat) : List.range n ++ [n, n + 1] = List.range (n + 2) := by
  rw [show n + 2 = (n + 1) + 1 from rfl, List.range_succ, List.range_succ]
  simp

/-- Running a list of Deposition moves only grows the accumulation: two points
and one chained index pair per move, meshes untouched. -/
theorem processMoves_dep : ∀ (ms : List (Nat × GcodeLine)) (s : FileState),
    (∀ m ∈ ms, DepMove m) → s.indices = List.range s.positions.length →
    (processMoves s ms).positions.length = s.positions.length + 2 * ms.length ∧
    (processMoves s ms).indices = List.range (s.positions.length + 2 * ms.length) ∧
    (processMoves s ms).meshes = s.meshes
  | [], s, _, hidx => by simpa [processMoves] using hidx
  | m :: ms, s, hdep, hidx => by
    have hm := hdep m (List.mem_cons_self m ms)
    have hstep := stepGMove_dep s m.1 m.2 hm.1 hm.2
    have hidx' : (stepGMove s m.1 m.2).indices =
        List.range (stepGMove s m.1 m.2).positions.length := by
      rw [hstep]
      simp [hidx, range_two_more]
    obtain ⟨h1, h2, h3⟩ := processMoves_dep ms (stepGMove s m.1 m.2)
      (fun x hx => hdep x (List.mem_cons_of_mem m hx)) hidx'
    have hlen : (stepGMove s m.1 m.2).positions.length = s.positions.length + 2 := by
      rw [hstep]; simp
    refine ⟨?_, ?_, ?_⟩
    · show (processMoves (stepGMove s m.1 m.2) ms).positions.length = _
      rw [h1, hlen]
      simp [List.length_cons]
      ring
    · show (processMoves (stepGMove s m.1 m.2) ms).indices = _
      rw [h2, hlen]
      congr 1
      simp [List.length_cons]
      ring
    · show (processMoves (stepGMove s m.1 m.2) ms).meshes = _
      rw [h3, hstep]

theorem pairUp_append_pair (a b : Nat) : ∀ (l : List Nat), l.length % 2 = 0 →
    pairUp (l ++ [a, b]) = pairUp l ++ [(a, b)]
  | [], _ => rfl
  | [x], h => by simp at h
  | x :: y :: t, h => by
    have ht : t.length % 2 = 0 := by
      simp only [List.length_cons] at h
      omega
    simp only [List.cons_append, pairUp]
    rw [List.append_eq, pairUp_append_pair a b t ht]

theorem pairUp_range : ∀ n : Nat, pairUp (List.range (2 * n)) =
    (List.range n).map (fun k => (2 * k, 2 * k + 1))
  | 0 => rfl
  | n + 1 => by
    have h2 : 2 * (n + 1) = 2 * n + 2 := by ring
    rw [h2, ← range_two_more (2 * n),
      pairUp_append_pair _ _ _ (by simp [Nat.mul_mod_right]),
      pairUp_range n, List.range_succ, List.map_append]
    simp

/-- C2 (amended): starting with an empty accumulation, a nonempty run of N
Deposition moves with no intervening travel finalizes to exactly one stroke
with 2N points (each move contributes both its endpoints), N segments, and
the index pairs (0,1),(2,3),…,(2N−2,2N−1). -/
theorem c2_amended (ms : List (Nat × GcodeLine)) (c : GcodeContext)
    (hne : ms ≠ []) (hdep : ∀ m ∈ ms, DepMove m) :
    (CreateMesh (processMoves ⟨c, [], [], []⟩ ms)).meshes.map
        (fun m => (m.mVertices.length, m.mFaces)) =
      [(2 * ms.length, (List.range ms.length).map (fun k => (2 * k, 2 * k + 1)))] := by
  obtain ⟨h1, h2, h3⟩ := processMoves_dep ms ⟨c, [], [], []⟩ hdep (by simp)
  have hpos : (processMoves ⟨c, [], [], []⟩ ms).positions ≠ [] := by
    intro h
    rw [h] at h1
    simp at h1
    exact hne h1
  rw [CreateMesh_of_ne _ hpos]
  simp [h1, h2, h3, pairUp_range]

/-- C2 witness: the amended statement at a concrete two-move deposition run. -/
theorem c2_amended_witness :
    (CreateMesh (processMoves ⟨initContext, [], [], []⟩
        [(1, ⟨some 1, none, none, some 1⟩), (1, ⟨some 2, none, none, some 1⟩)])).meshes.map
        (fun m => (m.mVertices.length, m.mFaces)) =
      [(2 * 2, (List.range 2).map (fun k => (2 * k, 2 * k + 1)))] :=
  c2_amended [(1, ⟨some 1, none, none, some 1⟩), (1, ⟨some 2, none, none, some 1⟩)]
    initContext (by simp) (by with_unfolding_all decide)

/-- C2 counterexample: two chained deposition moves (`G1 X1 E1`, `G1 X2 E1`)
produce one stroke with 4 points (not N+1 = 3) and index pairs
(0,1),(2,3) (not the chained (0,1),(1,2)); its index-sequence length 4 is the
point count, not the point count minus 1. -/
theorem c2_counterexample :
    (CreateMesh (processMoves initFileState
        [(1, ⟨some 1, none, none, some 1⟩), (1, ⟨some 2, none, none, some 1⟩)])).meshes.map
        (fun m => (m.mVertices.length, m.mFaces)) = [(4, [(0, 1), (2, 3)])] ∧
    (4 : Nat) ≠ 2 + 1 ∧
    [((0 : Nat), (1 : Nat)), (2, 3)] ≠ [(0, 1), (1, 2)] := by
  with_unfolding_all decide

/-- C3 (amended): on each Deposition move the previous and the new *logical*
positions are appended as the segment's endpoints; a finalized stroke's points
are the stored logical points shifted by the offset in effect at finalization
time (they equal the move-time world positions only when the offset has not
changed in between — see the counterexample). -/
theorem c3_amended (s : FileState) (g : Nat) (v : GcodeLine)
    (hg : g = 0 ∨ g = 1 ∨ g = 7) (he : 0 < v.GetE 0) :
    (stepGMove s g v).positions =
      s.positions ++ [s.ctx.m_pos, movedPos s.ctx g v] ∧
    (∀ t : FileState, t.positions ≠ [] →
      (CreateMesh t).meshes = t.meshes ++
        [⟨t.positions.map (fun p => t.ctx.ToAbsolutePosition p), pairUp t.indices⟩]) := by
  refine ⟨?_, fun t ht => by rw [CreateMesh_of_ne t ht]⟩
  rw [stepGMove_dep s g v hg he]

/-- C3 witness at a concrete deposition step and a concrete finalization. -/
theorem c3_amended_witness :
    (stepGMove initFileState 1 ⟨some 1, none, none, some 1⟩).positions =
      initFileState.positions ++
        [initFileState.ctx.m_pos, movedPos initFileState.ctx 1 ⟨some 1, none, none, some 1⟩] ∧
    (CreateMesh ⟨initContext, [0, 1], [⟨0, 0, 0⟩, ⟨1, 0, 0⟩], []⟩).meshes =
      ([] : List Mesh) ++
        [⟨[⟨0, 0, 0⟩, ⟨1, 0, 0⟩].map (fun p => initContext.ToAbsolutePosition p), pairUp [0, 1]⟩] :=
  ⟨(c3_amended initFileState 1 ⟨some 1, none, none, some 1⟩ (by decide)
      (by with_unfolding_all decide)).1,
   (c3_amended initFileState 1 ⟨some 1, none, none, some 1⟩ (by decide)
      (by with_unfolding_all decide)).2 ⟨initContext, [0, 1], [⟨0, 0, 0⟩, ⟨1, 0, 0⟩], []⟩
      (by simp)⟩

/-- C3 counterexample: `G1 X1 E1` deposits from world (0,0,0) to (1,0,0)
(offset is zero at the time of the move), but a following `G92` changes the
offset to (1,0,0) before finalization, and the finalized stroke's points are
(1,0,0),(2,0,0) — not the world-space endpoints of the move. -/
theorem c3_counterexample :
    (CreateMesh (processMoves initFileState
        [(1, ⟨some 1, none, none, some 1⟩), (92, emptyLine)])).meshes =
      [⟨[⟨1, 0, 0⟩, ⟨2, 0, 0⟩], [(0, 1)]⟩] ∧
    ([⟨1, 0, 0⟩, ⟨2, 0, 0⟩] : List Vec3) ≠ [⟨0, 0, 0⟩, ⟨1, 0, 0⟩] := by
  with_unfolding_all decide

/-- The concrete input of the spec's scenario for the travel-split property. -/
def c4input : List Char :=
  ("G90\nG1 X0 Y0 E1\nG1 X10 Y0 E1\nG0 X10 Y10\nG1 X10 Y10 E1\nG1 X20 Y10 E1").toList

/-- C4 (amended): the concrete input yields exactly 2 strokes, but each stroke
has 4 points (both endpoints of each deposition move are stored, including the
zero-length first segment) and 2 segments with index pairs (0,1),(2,3); and in
general a travel move strictly between two nonempty deposition runs yields
exactly two strokes. -/
theorem c4_amended (A B : List (Nat × GcodeLine)) (t0 : Nat × GcodeLine)
    (c : GcodeContext) (hA : A ≠ []) (hAd : ∀ m ∈ A, DepMove m)
    (hB : B ≠ []) (hBd : ∀ m ∈ B, DepMove m) (ht : TravelMove t0) :
    (ReadGcodeFile c4input).meshes =
      [⟨[⟨0, 0, 0⟩, ⟨0, 0, 0⟩, ⟨0, 0, 0⟩, ⟨10, 0, 0⟩], [(0, 1), (2, 3)]⟩,
       ⟨[⟨10, 10, 0⟩, ⟨10, 10, 0⟩, ⟨10, 10, 0⟩, ⟨20, 10, 0⟩], [(0, 1), (2, 3)]⟩] ∧
    (CreateMesh (processMoves ⟨c, [], [], []⟩ (A ++ t0 :: B))).meshes.length = 2 := by
  constructor
  · with_unfolding_all decide
  · rw [processMoves_append A (t0 :: B)]
    obtain ⟨hA1, hA2, hA3⟩ := processMoves_dep A ⟨c, [], [], []⟩ hAd (by simp)
    have hposA : (processMoves ⟨c, [], [], []⟩ A).positions ≠ [] :=
      List.ne_nil_of_length_pos (by
        rw [hA1]
        have := List.length_pos.mpr hA
        omega)
    have hstepT : processMoves (processMoves ⟨c, [], [], []⟩ A) (t0 :: B) =
        processMoves (stepGMove (processMoves ⟨c, [], [], []⟩ A) t0.1 t0.2) B := rfl
    rw [hstepT]
    have htr := stepGMove_travel (processMoves ⟨c, [], [], []⟩ A) t0.1 t0.2
      ht.1 ht.2.1 ht.2.2
    have hCM := CreateMesh_of_ne (processMoves ⟨c, [], [], []⟩ A) hposA
    have hXpos : (stepGMove (processMoves ⟨c, [], [], []⟩ A) t0.1 t0.2).positions = [] := by
      rw [htr, hCM]
    have hXidx : (stepGMove (processMoves ⟨c, [], [], []⟩ A) t0.1 t0.2).indices = [] := by
      rw [htr, hCM]
    have hXmesh : (stepGMove (processMoves ⟨c, [], [], []⟩ A) t0.1 t0.2).meshes =
        (processMoves ⟨c, [], [], []⟩ A).meshes ++
          [⟨(processMoves ⟨c, [], [], []⟩ A).positions.map
              (fun p => (processMoves ⟨c, [], [], []⟩ A).ctx.ToAbsolutePosition p),
            pairUp (processMoves ⟨c, [], [], []⟩ A).indices⟩] := by
      rw [htr, hCM]
    obtain ⟨hB1, hB2, hB3⟩ := processMoves_dep B
      (stepGMove (processMoves ⟨c, [], [], []⟩ A) t0.1 t0.2) hBd
      (by rw [hXidx, hXpos]; simp)
    have hposB : (processMoves
        (stepGMove (processMoves ⟨c, [], [], []⟩ A) t0.1 t0.2) B).positions ≠ [] :=
      List.ne_nil_of_length_pos (by
        rw [hB1, hXpos]
        have := List.length_pos.mpr hB
        simp
        omega)
    rw [CreateMesh_of_ne _ hposB]
    simp [hB3, hXmesh, hA3]

/-- C4 witness: the travel-split hypotheses hold at a concrete pair of
one-move deposition runs split by a concrete travel move. -/
theorem c4_amended_witness :
    (ReadGcodeFile c4input).meshes =
      [⟨[⟨0, 0, 0⟩, ⟨0, 0, 0⟩, ⟨0, 0, 0⟩, ⟨10, 0, 0⟩], [(0, 1), (2, 3)]⟩,
       ⟨[⟨10, 10, 0⟩, ⟨10, 10, 0⟩, ⟨10, 10, 0⟩, ⟨20, 10, 0⟩], [(0, 1), (2, 3)]⟩] ∧
    (CreateMesh (processMoves ⟨initContext, [], [], []⟩
        ([(1, ⟨some 1, none, none, some 1⟩)] ++
          (0, ⟨some 1, none, none, none⟩) :: [(1, ⟨some 2, none, none, some 1⟩)]))).meshes.length = 2 :=
  c4_amended [(1, ⟨some 1, none, none, some 1⟩)] [(1, ⟨some 2, none, none, some 1⟩)]
    (0, ⟨some 1, none, none, none⟩) initContext (by simp)
    (by with_unfolding_all decide) (by simp) (by with_unfolding_all decide)
    (by with_unfolding_all decide)

/-- C4 counterexample: on the spec's concrete input the first stroke's point
list is not the claimed [(0,0,0),(10,0,0)] — each stroke stores four points
and two segments. -/
theorem c4_counterexample :
    (ReadGcodeFile c4input).meshes.map (fun m => m.mVertices) =
      [[⟨0, 0, 0⟩, ⟨0, 0, 0⟩, ⟨0, 0, 0⟩, ⟨10, 0, 0⟩],
       [⟨10, 10, 0⟩, ⟨10, 10, 0⟩, ⟨10, 10, 0⟩, ⟨20, 10, 0⟩]] ∧
    ([⟨0, 0, 0⟩, ⟨0, 0, 0⟩, ⟨0, 0, 0⟩, ⟨10, 0, 0⟩] : List Vec3) ≠
      [⟨0, 0, 0⟩, ⟨10, 0, 0⟩] := by
  with_unfolding_all decide

/-- C7: in the line `G1 XABC E1` the malformed X literal is treated as an
absent axis — tokenizing yields no x value and `e = 1`, the move still parses
(classified Deposition, no error), and the resulting position keeps the prior
x coordinate of the context, whatever it was. -/
theorem c7_malformed_literal_axis_absent (c : GcodeContext) :
    (ReadGcodeLine (" XABC E1".toList)).1 = { e := some 1 } ∧
    (ReadGcodeMove c ("1 XABC E1".toList) c.m_pos).2.1.x = c.m_pos.x ∧
    (ReadGcodeMove c ("1 XABC E1".toList) c.m_pos).2.2.1 = GcodeMove.Extrusion := by
  have h3 : ReadGcodeMove c ("1 XABC E1".toList) c.m_pos =
      ((ReadGcodeMoveV c 1 { e := some 1 } c.m_pos).1,
       (ReadGcodeMoveV c 1 { e := some 1 } c.m_pos).2.1,
       (ReadGcodeMoveV c 1 { e := some 1 } c.m_pos).2.2, []) := by
    with_unfolding_all rfl
  refine ⟨by with_unfolding_all decide, ?_, ?_⟩ <;>
  · rw [h3]
    obtain ⟨ab, ⟨px, py, pz⟩, off⟩ := c
    cases ab <;>
      simp [ReadGcodeMoveV, GcodeLine.GetX, GcodeLine.GetY,
        GcodeLine.GetZ, GcodeLine.GetE, GcodeLine.HasX, GcodeLine.HasY, GcodeLine.HasZ]
